import Mathlib

/-!
# Verification of the PdfML document-analysis core

Shallow embedding of the core control flow of the PdfML repository:

* `pdfml/models/form_extractor.py` — BIO label decoding (`_process_page`)
  and the geometric field/value pairing (`_pair_fields_and_values`);
* `pdfml/core/pdf_processor.py` — per-page text extraction with OCR
  fallback (`extract_text`, `_extract_text_with_ocr`);
* `pdfml/core/pdf_analyzer.py` — orchestration (`analyze_layout`,
  `extract_tables`, `extract_entities`);
* `pdfml/extractors/table_extractor.py` — region-guided table reads.

External collaborators (PyMuPDF, pdf2image, pytesseract, LayoutLMv3,
camelot) are modelled as oracles: pure functions where the Python code
treats their result as opaque data, `Except`-valued functions where the
claims under study concern their failure behaviour.  Coordinates are
modelled as exact rationals; the Python code computes a Euclidean
distance with `np.sqrt`, which is strictly monotone on nonnegative
reals, so ordering by distance is modelled as ordering by squared
distance.
-/

namespace PdfML

/-! ## Structural string primitives

The Python code uses `str.startswith`, `str.strip`, and `str.replace`.
Lean's built-in `String.startsWith`, `String.trim` and `String.replace`
are implemented with well-founded recursion over byte positions and do
not reduce inside the kernel, so the same operations are implemented
here structurally over the character data (witnesses must evaluate on
concrete inputs). -/

/-- Does the second character list lead the first? -/
def charsStart : List Char → List Char → Bool
  | _, [] => true
  | [], _ :: _ => false
  | c :: cs, d :: ds => c == d && charsStart cs ds

/-- `s.startswith(p)`. -/
def strStartsWith (s p : String) : Bool := charsStart s.data p.data

/-- `s.strip()`: remove leading and trailing whitespace. -/
def strTrim (s : String) : String :=
  ⟨((s.data.dropWhile Char.isWhitespace).reverse.dropWhile
    Char.isWhitespace).reverse⟩

/-- Replace non-overlapping occurrences of `pat`, left to right; the
fuel argument (initialized to the string length) makes the recursion
structural. -/
def strReplaceGo (pat rep : List Char) : ℕ → List Char → List Char
  | _, [] => []
  | 0, l => l
  | fuel + 1, c :: cs =>
    if charsStart (c :: cs) pat then
      rep ++ strReplaceGo pat rep fuel (List.drop pat.length (c :: cs))
    else c :: strReplaceGo pat rep fuel cs

/-- `s.replace(pat, rep)`. -/
def strReplace (s pat rep : String) : String :=
  ⟨strReplaceGo pat.data rep.data s.data.length s.data⟩

/-- An axis-aligned bounding box `[x1, y1, x2, y2]`, as the 4-element
lists used throughout `form_extractor.py`. -/
structure Box where
  x1 : ℚ
  y1 : ℚ
  x2 : ℚ
  y2 : ℚ
deriving DecidableEq, Repr

/-- The box-union step of `_process_page` (lines 170–175):
`[min x1, min y1, max x2, max y2]`. -/
def boxUnion (b c : Box) : Box :=
  ⟨min b.x1 c.x1, min b.y1 c.y1, max b.x2 c.x2, max b.y2 c.y2⟩

/-- A decoded span, i.e. one of the dicts
`{"type": ..., "text": ..., "bbox": ...}` appended to `fields` in
`FormExtractor._process_page`. -/
structure Span where
  type : String
  text : String
  bbox : Box
deriving DecidableEq, Repr

/-- One output dict of `FormExtractor._pair_fields_and_values`:
`{"field_name", "field_value", "field_bbox", "value_bbox"}`, where
`value_bbox` is `None` when no candidate value was found. -/
structure FieldValuePair where
  field_name : String
  field_value : String
  field_bbox : Box
  value_bbox : Option Box
deriving DecidableEq, Repr

/-! ## Field/value pairing (`_pair_fields_and_values`) -/

/-- `is_right = value_box[0] >= field_box[2]` (line 230). -/
def isRight (valueBox fieldBox : Box) : Bool :=
  valueBox.x1 ≥ fieldBox.x2

/-- `is_below = value_box[1] >= field_box[3]` (line 231). -/
def isBelow (valueBox fieldBox : Box) : Bool :=
  valueBox.y1 ≥ fieldBox.y2

/-- Squared Euclidean distance between the centers of two boxes
(lines 235–239).  The source compares `np.sqrt` of this quantity;
`Real.sqrt` is strictly monotone on nonnegatives, so comparisons of
distances coincide with comparisons of squared distances. -/
def dist2 (fieldBox valueBox : Box) : ℚ :=
  ((fieldBox.x1 + fieldBox.x2) / 2 - (valueBox.x1 + valueBox.x2) / 2) ^ 2 +
  ((fieldBox.y1 + fieldBox.y2) / 2 - (valueBox.y1 + valueBox.y2) / 2) ^ 2

/-- One entry of the `candidates` list: `(value, distance, is_right)`
(line 241), with the distance kept squared. -/
structure Cand where
  value : Span
  d2 : ℚ
  right : Bool
deriving DecidableEq, Repr

/-- The sort key `lambda x: (not x[2], x[1])` of line 244, as a boolean
"less-or-equal" on candidates: Python compares the tuples
lexicographically with `False < True`, so `(not r1, d1) ≤ (not r2, d2)`
iff `not r1 < not r2` (i.e. `r1 ∧ ¬ r2`) or `r1 = r2 ∧ d1 ≤ d2`. -/
def candLE (c1 c2 : Cand) : Bool :=
  (c1.right && !c2.right) || (c1.right == c2.right && c1.d2 ≤ c2.d2)

/-- The candidate-collection loop of lines 224–241: values that are to
the right or below the field, each with its (squared) center distance
and its `is_right` flag, in the order of `value_elements`. -/
def candidatesFor (field : Span) (values : List Span) : List Cand :=
  values.filterMap fun v =>
    let r := isRight v.bbox field.bbox
    let b := isBelow v.bbox field.bbox
    if r || b then some ⟨v, dist2 field.bbox v.bbox, r⟩ else none

/-- `FormExtractor._pair_fields_and_values` (lines 203–266): split the
spans into FIELD and VALUE elements, and for each field stably sort its
candidates by `(not is_right, distance)` and take the first, or emit an
unmatched pair when there is no candidate.  Python's `list.sort` is
stable, and a stable sort by a total preorder is unique as a function
of the input list, so it is modelled by stable insertion sort. -/
def pairFieldsAndValues (fields : List Span) : List FieldValuePair :=
  let fieldElements := fields.filter (fun f => f.type == "FIELD")
  let valueElements := fields.filter (fun f => f.type == "VALUE")
  fieldElements.map fun field =>
    match (candidatesFor field valueElements).insertionSort
        (fun c1 c2 => candLE c1 c2) with
    | c :: _ =>
        { field_name := field.text
          field_value := c.value.text
          field_bbox := field.bbox
          value_bbox := some c.value.bbox }
    | [] =>
        { field_name := field.text
          field_value := ""
          field_bbox := field.bbox
          value_bbox := none }

/-! ## BIO label decoding (`_process_page`, lines 138–201) -/

/-- One token of the classifier output, as consumed by the loop
`for i, (token, pred, box) in enumerate(zip(tokens, predictions, bbox))`:
the token text, the predicted label id, and the token bounding box. -/
structure Tok where
  text : String
  pred : ℕ
  box : Box
deriving DecidableEq, Repr

/-- `FormExtractor.default_labels` (lines 41–53), as the total function
`self.label_map.get(pred, "O")` of line 144. -/
def defaultLabels (n : ℕ) : String :=
  match n with
  | 0 => "O"
  | 1 => "B-QUESTION"
  | 2 => "I-QUESTION"
  | 3 => "B-ANSWER"
  | 4 => "I-ANSWER"
  | 5 => "B-HEADER"
  | 6 => "I-HEADER"
  | 7 => "B-FIELD"
  | 8 => "I-FIELD"
  | 9 => "B-VALUE"
  | 10 => "I-VALUE"
  | _ => "O"

/-- The special-token test of line 147: `token.startswith("[CLS]") or
token.startswith("[SEP]") or token.startswith("[PAD]")`. -/
def specialTok (t : String) : Bool :=
  strStartsWith t "[CLS]" || strStartsWith t "[SEP]" || strStartsWith t "[PAD]"

/-- The decoding loop state.  The source keeps three variables
`current_entity`, `current_text`, `current_box`; `current_entity` and
`current_box` are `None` exactly together (both are set by the `B-`
branch and cleared by the `O` branch), so the open span is modelled as
one optional triple (entity, accumulated text, accumulated box). -/
structure DecSt where
  fields : List Span
  cur : Option (String × String × Box)
deriving Repr

/-- The flush step `if current_entity is not None and current_text:`
(lines 153–158, 180–185, 191–196): emit the open span, with its text
whitespace-trimmed, when its accumulated text is non-empty. -/
def emitCur (fields : List Span) (cur : Option (String × String × Box)) :
    List Span :=
  match cur with
  | some (e, t, b) => if t ≠ "" then fields ++ [⟨e, strTrim t, b⟩] else fields
  | none => fields

/-- One iteration of the decoding loop (lines 143–188); `label` is
`self.label_map.get(pred, "O")`, written out as `labelMap tok.pred`. -/
def decodeStep (labelMap : ℕ → String) (s : DecSt) (tok : Tok) : DecSt :=
  if specialTok tok.text then s
  else if strStartsWith (labelMap tok.pred) "B-" then
    { fields := emitCur s.fields s.cur
      cur := some ((labelMap tok.pred).drop 2,
        strReplace tok.text "##" "", tok.box) }
  else if strStartsWith (labelMap tok.pred) "I-" &&
      (match s.cur with
       | some (e, _, _) => e == (labelMap tok.pred).drop 2
       | none => false) then
    match s.cur with
    | some (e, t, b) =>
        { s with cur := some (e, t ++ strReplace tok.text "##" "",
            boxUnion b tok.box) }
    | none => s
  else if labelMap tok.pred == "O" then
    { fields := emitCur s.fields s.cur, cur := none }
  else s

/-- The whole decoding pass of `_process_page` (lines 138–196): fold the
loop over the token stream, then flush the still-open span. -/
def decodeTokens (labelMap : ℕ → String) (toks : List Tok) : List Span :=
  let s := toks.foldl (decodeStep labelMap) ⟨[], none⟩
  emitCur s.fields s.cur

/-- `_process_page` after decoding hands the span list to
`_pair_fields_and_values` (line 199). -/
def processTokens (labelMap : ℕ → String) (toks : List Tok) :
    List FieldValuePair :=
  pairFieldsAndValues (decodeTokens labelMap toks)

/-! ## Python dictionaries with integer keys

The per-page results are Python dicts built by `result[page_num] = ...`
inside a loop; a dict is modelled as an insertion-ordered association
list where assigning to an existing key updates it in place. -/

/-- `d[k] = v`: update in place when `k` is present (dict keys are
unique, so replacing the first occurrence is Python's behaviour),
append otherwise. -/
def dinsert (k : ℤ) (v : α) : List (ℤ × α) → List (ℤ × α)
  | [] => [(k, v)]
  | p :: d => if p.1 = k then (k, v) :: d else p :: dinsert k v d

/-- `d.get(k)`. -/
def dlookup (k : ℤ) : List (ℤ × α) → Option α
  | [] => none
  | p :: d => if p.1 = k then some p.2 else dlookup k d

/-! ## Page indexing

`doc[page_num]` uses PyMuPDF document indexing: a negative index counts
back from the end (PyMuPDF's `load_page` adds the page count to a
negative index until it is nonnegative, i.e. reduces it modulo the page
count). -/

/-- The page position actually loaded by `doc[n]`. -/
def resolveIndex (count : ℕ) (n : ℤ) : ℤ :=
  if n < 0 then n % (count : ℤ) else n

/-- A loaded PDF document, abstracted to what the processor reads from
it: the native text layer of each page
(`page.get_textpage().extractText()`, line 77 of `pdf_processor.py`)
and, as an oracle, the text `_extract_text_with_ocr(page_num)` returns,
indexed by the raw `page_num` argument. -/
structure PDFDoc where
  pages : List String
  ocr : ℤ → String

/-- The native text of `doc[n]` under PyMuPDF indexing. -/
def pageText (pages : List String) (n : ℤ) : String :=
  pages.getD (resolveIndex pages.length n).toNat ""

/-! ## `PDFProcessor.extract_text` (lines 47–86)

External calls are total oracles here; `ocrLog` records the `page_num`
argument of each `_extract_text_with_ocr` call in order, and `warnLog`
records each page skipped with the "page does not exist" warning. -/

structure TextResult where
  result : List (ℤ × String)
  ocrLog : List ℤ
  warnLog : List ℤ
deriving Repr

/-- The text chosen before the fallback test: OCR when `use_ocr` is
set (line 75), the native text layer otherwise (line 77). -/
def firstChoiceText (doc : PDFDoc) (useOcr : Bool) (n : ℤ) : String :=
  if useOcr then doc.ocr n else pageText doc.pages n

/-- The text finally stored in `result[page_num]` (line 84): the first
choice, unless it is whitespace-only and OCR was not already used, in
which case the OCR fallback of lines 79–82 runs. -/
def pageOutputText (doc : PDFDoc) (useOcr : Bool) (n : ℤ) : String :=
  if strTrim (firstChoiceText doc useOcr n) = "" && !useOcr then doc.ocr n
  else firstChoiceText doc useOcr n

/-- The `page_num` arguments of the `_extract_text_with_ocr` calls one
loop iteration makes: one for line 75 when `use_ocr` is set, one for
line 82 when the fallback fires. -/
def ocrCallsFor (doc : PDFDoc) (useOcr : Bool) (n : ℤ) : List ℤ :=
  (if useOcr then [n] else []) ++
  (if strTrim (firstChoiceText doc useOcr n) = "" && !useOcr then [n] else [])

/-- One iteration of the `for page_num in page_numbers` loop
(lines 67–84). -/
def extractTextStep (doc : PDFDoc) (useOcr : Bool) (s : TextResult)
    (n : ℤ) : TextResult :=
  if n ≥ (doc.pages.length : ℤ) then { s with warnLog := s.warnLog ++ [n] }
  else
    { result := dinsert n (pageOutputText doc useOcr n) s.result
      ocrLog := s.ocrLog ++ ocrCallsFor doc useOcr n
      warnLog := s.warnLog }

/-- `PDFProcessor.extract_text`: `page_numbers=None` means all pages
(line 63). -/
def extractText (doc : PDFDoc) (useOcr : Bool)
    (filter : Option (List ℤ)) : TextResult :=
  let nums := match filter with
    | none => (List.range doc.pages.length).map Int.ofNat
    | some l => l
  nums.foldl (extractTextStep doc useOcr) ⟨[], [], []⟩

/-! ## Failure semantics of the OCR path (`_extract_text_with_ocr`,
lines 88–118)

To reason about exceptions, the rasterization + recognition calls are
modelled by an outcome oracle; `Except.error` stands for a raised
Python exception. -/

inductive OcrOutcome where
  /-- `convert_from_path` raises.  The call (lines 99–104) is not inside
  any `try`, so the exception propagates out of the method. -/
  | rasterRaises
  /-- `convert_from_path` returns no images: lines 106–108 return `""`. -/
  | noImages
  /-- `pytesseract.image_to_string` raises: caught at lines 116–118,
  logged, and degraded to `""`. -/
  | recognizeRaises
  /-- Recognition succeeds with text `s` (line 114–115). -/
  | recognized (s : String)
deriving DecidableEq, Repr

/-- `_extract_text_with_ocr` under the outcome oracle. -/
def extractTextWithOcrE (outcome : ℤ → OcrOutcome) (n : ℤ) :
    Except Unit String :=
  match outcome n with
  | .rasterRaises => .error ()
  | .noImages => .ok ""
  | .recognizeRaises => .ok ""
  | .recognized s => .ok s

/-- `extract_text` with exception propagation: the loop body has no
`try`, so an error from the OCR helper aborts the whole call and the
partial `result` dict is lost.  With `use_ocr` set the stored text is
the OCR output and the fallback test `not text.strip() and not
self.use_ocr` can never fire; otherwise the native text is used unless
it is whitespace-only, in which case the OCR fallback runs. -/
def extractTextELoop (pages : List String) (outcome : ℤ → OcrOutcome)
    (useOcr : Bool) :
    List ℤ → List (ℤ × String) → Except Unit (List (ℤ × String))
  | [], acc => .ok acc
  | n :: ns, acc =>
    if n ≥ (pages.length : ℤ) then
      extractTextELoop pages outcome useOcr ns acc
    else if useOcr then
      match extractTextWithOcrE outcome n with
      | .error e => .error e
      | .ok t0 => extractTextELoop pages outcome useOcr ns (dinsert n t0 acc)
    else if strTrim (pageText pages n) = "" then
      match extractTextWithOcrE outcome n with
      | .error e => .error e
      | .ok t => extractTextELoop pages outcome useOcr ns (dinsert n t acc)
    else
      extractTextELoop pages outcome useOcr ns
        (dinsert n (pageText pages n) acc)

/-- `extract_text`, fallible-oracle version. -/
def extractTextE (pages : List String) (outcome : ℤ → OcrOutcome)
    (useOcr : Bool) (filter : Option (List ℤ)) :
    Except Unit (List (ℤ × String)) :=
  let nums := match filter with
    | none => (List.range pages.length).map Int.ofNat
    | some l => l
  extractTextELoop pages outcome useOcr nums []

/-! ## `PDFAnalyzer.analyze_layout` (lines 103–134) -/

/-- A per-page layout result, abstracted to the part `extract_tables`
reads from it: `layout["tables"]`, each entry contributing its
`coords` box (lines 168–175 of `pdf_analyzer.py`). -/
structure Layout where
  tables : List Box
deriving DecidableEq, Repr

structure LayoutResult where
  result : List (ℤ × Layout)
  warnLog : List ℤ
deriving Repr

/-- One iteration of the layout loop (lines 124–131); the layout
extractor is an oracle over the loaded page, i.e. over the resolved
page position. -/
def analyzeLayoutStep (count : ℕ) (layoutOf : ℤ → Layout)
    (s : LayoutResult) (n : ℤ) : LayoutResult :=
  if n ≥ (count : ℤ) then { s with warnLog := s.warnLog ++ [n] }
  else { s with result := dinsert n (layoutOf (resolveIndex count n)) s.result }

/-- `PDFAnalyzer.analyze_layout`. -/
def analyzeLayout (count : ℕ) (layoutOf : ℤ → Layout)
    (filter : Option (List ℤ)) : LayoutResult :=
  let nums := match filter with
    | none => (List.range count).map Int.ofNat
    | some l => l
  nums.foldl (analyzeLayoutStep count layoutOf) ⟨[], []⟩

/-! ## `PDFAnalyzer.extract_tables` (lines 136–185)

The claim under study is about which TableReader invocation is made and
with which arguments, so the model returns the invocation itself. -/

inductive TableInvocation where
  /-- `self.table_extractor.extract_tables(self.pdf_path, pages=pages_str)`
  (lines 156–159): a whole-document or page-range scan. -/
  | fullScan (pagesStr : String)
  /-- `self.table_extractor.extract_tables_from_regions(self.pdf_path,
  table_regions)` (lines 178–181). -/
  | regionScan (regions : List (ℤ × List Box))
  /-- No reader call at all: `self.table_results = {}` (line 183). -/
  | noScan
deriving DecidableEq, Repr

/-- The page-filter test of line 165: a page is processed unless
`page_numbers is not None and page_num not in page_numbers`. -/
def requested (filter : Option (List ℤ)) (p : ℤ) : Bool :=
  match filter with
  | some f => f.contains p
  | none => true

/-- The `pages_str` computed at lines 151–154. -/
def pagesStr (filter : Option (List ℤ)) : String :=
  match filter with
  | none => "all"
  | some l => String.intercalate "," (l.map toString)

/-- `PDFAnalyzer.extract_tables`.  Note `if not self.layout_results:`
is Python falsiness: it selects the full scan both when layout was
never run (`None`) and when it produced an empty dict. -/
def extractTables (layoutResults : Option (List (ℤ × Layout)))
    (filter : Option (List ℤ)) : TableInvocation :=
  match layoutResults with
  | none => .fullScan (pagesStr filter)
  | some lr =>
    if lr.isEmpty then .fullScan (pagesStr filter)
    else
      let tableRegions := lr.filterMap fun pl =>
        if requested filter pl.1 then
          if pl.2.tables.isEmpty then none else some (pl.1, pl.2.tables)
        else none
      if tableRegions.isEmpty then .noScan else .regionScan tableRegions

/-- The camelot calls `TableExtractor.extract_tables_from_regions`
makes (lines 98–110 of `table_extractor.py`): one `read_pdf` per
region, with `pages=str(page_num)` and `table_areas=[region]`. -/
def tableReaderCalls (regions : List (ℤ × List Box)) : List (ℤ × Box) :=
  regions.flatMap fun pl => pl.2.map fun r => (pl.1, r)

/-! ## `FormExtractor.extract_form_fields` (lines 68–103)

The whole method body — document open, page loop, classification —
sits inside one `try` whose handler returns `{}`.  The classifier
(`_process_page` up to the raw `fields` list, i.e. rasterization plus
LayoutLM inference plus tokenization) is an oracle over the resolved
page position, fallible because the claim under study concerns its
exceptions. -/

def ffLoop (labelMap : ℕ → String) (count : ℕ)
    (classify : ℤ → Except Unit (List Tok)) :
    List ℤ → List (ℤ × List FieldValuePair) →
      Except Unit (List (ℤ × List FieldValuePair))
  | [], acc => .ok acc
  | n :: ns, acc =>
    if n ≥ (count : ℤ) then ffLoop labelMap count classify ns acc
    else
      match classify (resolveIndex count n) with
      | .error e => .error e
      | .ok toks =>
          ffLoop labelMap count classify ns
            (dinsert n (processTokens labelMap toks) acc)

/-- `FormExtractor.extract_form_fields`: the `except` clause at
lines 101–103 catches any exception from the loop and returns `{}`,
discarding every page processed so far. -/
def extractFormFields (labelMap : ℕ → String) (count : ℕ)
    (classify : ℤ → Except Unit (List Tok))
    (filter : Option (List ℤ)) : List (ℤ × List FieldValuePair) :=
  let nums := match filter with
    | none => (List.range count).map Int.ofNat
    | some l => l
  match ffLoop labelMap count classify nums [] with
  | .ok d => d
  | .error _ => []

/-! ## `PDFAnalyzer.extract_entities` (lines 187–214) -/

/-- Python truthiness of `self.extracted_text` in
`if not self.extracted_text:`: `None` or the empty dict. -/
def textFalsy (st : Option (List (ℤ × String))) : Bool :=
  match st with
  | none => true
  | some d => d.isEmpty

/-- `PDFAnalyzer.extract_entities`, modelled as the pair of the new
`self.extracted_text` state and the `text_dict` handed to
`extract_entities_from_pdf_text` (line 213). -/
def extractEntities (doc : PDFDoc) (useOcr : Bool)
    (st : Option (List (ℤ × String))) (filter : Option (List ℤ)) :
    Option (List (ℤ × String)) × List (ℤ × String) :=
  let st' := if textFalsy st then some (extractText doc useOcr filter).result
             else st
  let textDict :=
    match st' with
    | none => []
    | some d =>
      match filter with
      | some f => d.filter (fun p => f.contains p.1)
      | none => d
  (st', textDict)

/-! ## Derived definitions used to state the theorems -/

/-- `token.replace("##", "")` (lines 162, 167): the sub-word
continuation marker is stripped from a token's text. -/
def stripHash (t : String) : String := strReplace t "##" ""

/-- Order-preserving concatenation of token texts with the continuation
marker stripped. -/
def concatStripped : List (String × Box) → String
  | [] => ""
  | p :: ps => stripHash p.1 ++ concatStripped ps

/-- Coordinate-wise union of the boxes `b :: bs`:
`(min x1, min y1, max x2, max y2)` over all of them. -/
def boxListUnion (b : Box) (bs : List Box) : Box :=
  ⟨(bs.map Box.x1).foldl min b.x1, (bs.map Box.y1).foldl min b.y1,
   (bs.map Box.x2).foldl max b.x2, (bs.map Box.y2).foldl max b.y2⟩

/-- Left fold of the source's incremental box-union step. -/
def unionList (b : Box) (bs : List Box) : Box := bs.foldl boxUnion b

/-- The (text, box) stream of a classifier output. -/
def inputPairs (toks : List Tok) : List (String × Box) :=
  toks.map fun tk => (tk.text, tk.box)

/-- A span is explained by a nonempty ordered selection of input
(text, box) pairs: its text is the whitespace-trimmed concatenation of
the stripped token texts, its box the union of the token boxes. -/
def SpanFrom (pairs : List (String × Box)) (sp : Span) : Prop :=
  ∃ t0 ts, (t0 :: ts).Sublist pairs ∧
    sp.text = strTrim (concatStripped (t0 :: ts)) ∧
    sp.bbox = unionList t0.2 (ts.map Prod.snd)

/-- The open-span accumulator is explained by a nonempty ordered
selection of input pairs (text not yet trimmed). -/
def CurFrom (pairs : List (String × Box)) :
    Option (String × String × Box) → Prop
  | none => True
  | some (_, t, b) =>
      ∃ t0 ts, (t0 :: ts).Sublist pairs ∧
        t = concatStripped (t0 :: ts) ∧
        b = unionList t0.2 (ts.map Prod.snd)

/-- The string `_extract_text_with_ocr` returns for a non-raising
outcome. -/
def ocrValue : OcrOutcome → String
  | .rasterRaises => ""
  | .noImages => ""
  | .recognizeRaises => ""
  | .recognized s => s

/-- One iteration of the form-extraction page loop in the absence of
exceptions. -/
def ffStepPure (labelMap : ℕ → String) (count : ℕ) (toksOf : ℤ → List Tok)
    (acc : List (ℤ × List FieldValuePair)) (n : ℤ) :
    List (ℤ × List FieldValuePair) :=
  if n ≥ (count : ℤ) then acc
  else dinsert n (processTokens labelMap (toksOf (resolveIndex count n))) acc

/-! ## The candidate order -/

theorem candLE_refl (c : Cand) : candLE c c := by
  simp [candLE]

theorem candLE_total (a b : Cand) : candLE a b || candLE b a := by
  simp only [candLE]
  cases a.right <;> cases b.right <;> simp [le_total]

theorem candLE_trans (a b c : Cand) :
    candLE a b → candLE b c → candLE a c := by
  simp only [candLE]
  cases a.right <;> cases b.right <;> cases c.right <;> simp <;>
    exact le_trans

theorem sort_head_mem {l rest : List Cand} {c : Cand}
    (h : l.insertionSort (fun c1 c2 => candLE c1 c2) = c :: rest) :
    c ∈ l :=
  (List.perm_insertionSort _ l).mem_iff.1
    (by rw [h]; exact List.mem_cons_self c rest)

theorem sort_head_le {l rest : List Cand} {c : Cand}
    (h : l.insertionSort (fun c1 c2 => candLE c1 c2) = c :: rest) :
    ∀ x ∈ l, candLE c x := by
  intro x hx
  have hx' : x ∈ l.insertionSort (fun c1 c2 => candLE c1 c2) :=
    (List.perm_insertionSort _ l).mem_iff.2 hx
  rw [h] at hx'
  rcases List.mem_cons.1 hx' with rfl | hx'
  · exact candLE_refl x
  · haveI : IsTotal Cand (fun c1 c2 => candLE c1 c2) :=
      ⟨fun a b => Bool.or_eq_true_iff.1 (candLE_total a b)⟩
    haveI : IsTrans Cand (fun c1 c2 => candLE c1 c2) :=
      ⟨fun a b d => candLE_trans a b d⟩
    have hs := List.sorted_insertionSort (fun c1 c2 => candLE c1 c2) l
    rw [h] at hs
    exact (List.pairwise_cons.1 hs).1 x hx'

theorem mem_candidatesFor {field : Span} {values : List Span} {c : Cand}
    (h : c ∈ candidatesFor field values) :
    c.value ∈ values ∧
      (isRight c.value.bbox field.bbox || isBelow c.value.bbox field.bbox) ∧
      c.d2 = dist2 field.bbox c.value.bbox ∧
      c.right = isRight c.value.bbox field.bbox := by
  rcases List.mem_filterMap.1 h with ⟨v, hv, hf⟩
  simp only at hf
  split at hf
  next hcond =>
    cases hf
    exact ⟨hv, by simpa using hcond, rfl, rfl⟩
  next => cases hf

theorem candidatesFor_mem_of {field v : Span} {values : List Span}
    (hv : v ∈ values)
    (hc : isRight v.bbox field.bbox || isBelow v.bbox field.bbox) :
    (⟨v, dist2 field.bbox v.bbox, isRight v.bbox field.bbox⟩ : Cand) ∈
      candidatesFor field values :=
  List.mem_filterMap.2 ⟨v, hv, by simp only; rw [if_pos (by simpa using hc)]⟩

/-- The `i`-th output of the pairing is determined by the `i`-th FIELD
element. -/
theorem pairFieldsAndValues_get? (fields : List Span) (i : ℕ) (field : Span)
    (hf : (fields.filter (fun f => f.type == "FIELD"))[i]? = some field) :
    (pairFieldsAndValues fields)[i]? = some (
      match (candidatesFor field
          (fields.filter (fun f => f.type == "VALUE"))).insertionSort
          (fun c1 c2 => candLE c1 c2) with
      | c :: _ => ⟨field.text, c.value.text, field.bbox, some c.value.bbox⟩
      | [] => ⟨field.text, "", field.bbox, none⟩) := by
  unfold pairFieldsAndValues
  simp only [List.getElem?_map, hf, Option.map_some']

/-- **C7**: for every input span list, `_pair_fields_and_values` returns
exactly one pair per FIELD span, in the order the FIELD spans were
decoded; a FIELD with no VALUE candidate satisfying the directional
constraint yields a pair with empty `field_value` and null `value_bbox`,
with `field_name` and `field_bbox` still populated from the field
span. -/
theorem pairing_one_pair_per_field_in_order (fields : List Span) :
    (pairFieldsAndValues fields).length =
      (fields.filter (fun f => f.type == "FIELD")).length ∧
    ∀ (i : ℕ) (field : Span),
      (fields.filter (fun f => f.type == "FIELD"))[i]? = some field →
      ∃ pair : FieldValuePair, (pairFieldsAndValues fields)[i]? = some pair ∧
        pair.field_name = field.text ∧ pair.field_bbox = field.bbox ∧
        ((∀ v ∈ fields.filter (fun f => f.type == "VALUE"),
            isRight v.bbox field.bbox = false ∧
            isBelow v.bbox field.bbox = false) →
          pair.field_value = "" ∧ pair.value_bbox = none) := by
  refine ⟨by unfold pairFieldsAndValues; simp, ?_⟩
  intro i field hf
  have hget := pairFieldsAndValues_get? fields i field hf
  cases hms : (candidatesFor field
      (fields.filter (fun f => f.type == "VALUE"))).insertionSort
      (fun c1 c2 => candLE c1 c2) with
  | nil =>
      rw [hms] at hget
      exact ⟨_, hget, rfl, rfl, fun _ => ⟨rfl, rfl⟩⟩
  | cons c rest =>
      rw [hms] at hget
      refine ⟨_, hget, rfl, rfl, fun hnone => ?_⟩
      exfalso
      obtain ⟨hv, hconstr, -, -⟩ := mem_candidatesFor (sort_head_mem hms)
      obtain ⟨h1, h2⟩ := hnone c.value hv
      rw [h1, h2] at hconstr
      simp at hconstr

/-- Witness for `pairing_one_pair_per_field_in_order` at a concrete
input: one FIELD with no VALUE span at all yields the unmatched pair. -/
theorem pairing_one_pair_per_field_in_order_witness :
    ∃ pair : FieldValuePair,
      (pairFieldsAndValues [⟨"FIELD", "Name", ⟨0, 0, 40, 10⟩⟩])[0]? =
        some pair ∧
      pair.field_name = "Name" ∧ pair.field_bbox = ⟨0, 0, 40, 10⟩ ∧
      ((∀ v ∈ ([⟨"FIELD", "Name", ⟨0, 0, 40, 10⟩⟩] : List Span).filter
            (fun f => f.type == "VALUE"),
          isRight v.bbox (⟨0, 0, 40, 10⟩ : Box) = false ∧
          isBelow v.bbox (⟨0, 0, 40, 10⟩ : Box) = false) →
        pair.field_value = "" ∧ pair.value_bbox = none) :=
  (pairing_one_pair_per_field_in_order
    [⟨"FIELD", "Name", ⟨0, 0, 40, 10⟩⟩]).2 0 ⟨"FIELD", "Name", ⟨0, 0, 40, 10⟩⟩
    (by decide)

/-- **C5** as stated is false on the code: `_pair_fields_and_values`
never removes a matched VALUE from `value_elements`, so one VALUE span
may be claimed by more than one FIELD.  Concretely, with two FIELD
spans and a single VALUE span to the right of both, both output pairs
claim that same VALUE. -/
theorem pairing_value_claimed_twice_counterexample :
    (pairFieldsAndValues
        [⟨"FIELD", "A", ⟨0, 0, 10, 10⟩⟩,
         ⟨"FIELD", "B", ⟨0, 12, 10, 22⟩⟩,
         ⟨"VALUE", "v", ⟨20, 0, 30, 10⟩⟩]).map
        (fun p => (p.field_name, p.field_value, p.value_bbox)) =
      [("A", "v", some ⟨20, 0, 30, 10⟩), ("B", "v", some ⟨20, 0, 30, 10⟩)] := by
  decide

/-- **C5 (amended)**: every span of type FIELD appears in exactly one
output pair (the `i`-th pair is built from the `i`-th FIELD span), but
no exclusivity is enforced on VALUE spans: a VALUE may be claimed by
any number of FIELDs. -/
theorem pairing_field_exactly_one_pair (fields : List Span) (i : ℕ)
    (field : Span) (pair : FieldValuePair)
    (hf : (fields.filter (fun f => f.type == "FIELD"))[i]? = some field)
    (hp : (pairFieldsAndValues fields)[i]? = some pair) :
    (pairFieldsAndValues fields).length =
      (fields.filter (fun f => f.type == "FIELD")).length ∧
    pair.field_name = field.text ∧ pair.field_bbox = field.bbox := by
  have hget := pairFieldsAndValues_get? fields i field hf
  rw [hp] at hget
  have hpair := Option.some.inj hget
  refine ⟨by unfold pairFieldsAndValues; simp, ?_⟩
  cases hms : (candidatesFor field
      (fields.filter (fun f => f.type == "VALUE"))).insertionSort
      (fun c1 c2 => candLE c1 c2) with
  | nil => rw [hms] at hpair; rw [hpair]; exact ⟨rfl, rfl⟩
  | cons c rest => rw [hms] at hpair; rw [hpair]; exact ⟨rfl, rfl⟩

/-- Witness for `pairing_field_exactly_one_pair` at a concrete input. -/
theorem pairing_field_exactly_one_pair_witness :
    (pairFieldsAndValues [⟨"FIELD", "Name", ⟨0, 0, 40, 10⟩⟩,
        ⟨"VALUE", "John", ⟨50, 0, 90, 10⟩⟩]).length =
      (([⟨"FIELD", "Name", ⟨0, 0, 40, 10⟩⟩,
        ⟨"VALUE", "John", ⟨50, 0, 90, 10⟩⟩] : List Span).filter
        (fun f => f.type == "FIELD")).length ∧
    (⟨"Name", "John", ⟨0, 0, 40, 10⟩, some ⟨50, 0, 90, 10⟩⟩ :
        FieldValuePair).field_name = "Name" ∧
    (⟨"Name", "John", ⟨0, 0, 40, 10⟩, some ⟨50, 0, 90, 10⟩⟩ :
        FieldValuePair).field_bbox = ⟨0, 0, 40, 10⟩ :=
  pairing_field_exactly_one_pair
    [⟨"FIELD", "Name", ⟨0, 0, 40, 10⟩⟩, ⟨"VALUE", "John", ⟨50, 0, 90, 10⟩⟩]
    0 ⟨"FIELD", "Name", ⟨0, 0, 40, 10⟩⟩
    ⟨"Name", "John", ⟨0, 0, 40, 10⟩, some ⟨50, 0, 90, 10⟩⟩
    (by decide) (by decide)

/-- **C2**: a matched VALUE always satisfies the directional constraint
(`value.x1 >= field.x2` or `value.y1 >= field.y2`), and among all VALUE
spans satisfying it the assigned one is minimal under the lexicographic
order (`is_right` descending, center distance ascending): a
right-positioned candidate beats any below-only candidate regardless of
distance, and ties on `is_right` are broken by smaller distance. -/
theorem pairing_directional_minimality (fields : List Span) (i : ℕ)
    (field : Span) (pair : FieldValuePair) (vb : Box)
    (hf : (fields.filter (fun f => f.type == "FIELD"))[i]? = some field)
    (hp : (pairFieldsAndValues fields)[i]? = some pair)
    (hvb : pair.value_bbox = some vb) :
    ∃ v ∈ fields.filter (fun f => f.type == "VALUE"),
      v.bbox = vb ∧ pair.field_value = v.text ∧
      (isRight v.bbox field.bbox || isBelow v.bbox field.bbox) ∧
      ∀ w ∈ fields.filter (fun f => f.type == "VALUE"),
        (isRight w.bbox field.bbox || isBelow w.bbox field.bbox) →
          (isRight w.bbox field.bbox = true →
            isRight v.bbox field.bbox = true) ∧
          (isRight v.bbox field.bbox = isRight w.bbox field.bbox →
            dist2 field.bbox v.bbox ≤ dist2 field.bbox w.bbox) := by
  have hget := pairFieldsAndValues_get? fields i field hf
  rw [hp] at hget
  have hpair := Option.some.inj hget
  cases hms : (candidatesFor field
      (fields.filter (fun f => f.type == "VALUE"))).insertionSort
      (fun c1 c2 => candLE c1 c2) with
  | nil =>
      rw [hms] at hpair
      rw [hpair] at hvb
      simp at hvb
  | cons c rest =>
      rw [hms] at hpair
      obtain ⟨hv, hconstr, hd2, hrt⟩ := mem_candidatesFor (sort_head_mem hms)
      refine ⟨c.value, hv, ?_, ?_, hconstr, ?_⟩
      · rw [hpair] at hvb
        exact (Option.some.inj hvb).symm ▸ rfl
      · rw [hpair]
      · intro w hw hwc
        have hle := sort_head_le hms _ (candidatesFor_mem_of hw hwc)
        simp only [candLE] at hle
        rw [hd2, hrt] at hle
        constructor
        · intro hwr
          cases hR : isRight c.value.bbox field.bbox with
          | true => rfl
          | false => rw [hR, hwr] at hle; simp at hle
        · intro heq
          rw [← heq] at hle
          cases hR : isRight c.value.bbox field.bbox with
          | true => rw [hR] at hle; simpa using hle
          | false => rw [hR] at hle; simpa using hle

/-- Witness for `pairing_directional_minimality`: a FIELD with a nearby
below-only VALUE and a distant right VALUE; the theorem applies and in
particular forces the matched value to be right-positioned. -/
theorem pairing_directional_minimality_witness :
    ∃ v ∈ ([⟨"FIELD", "A", ⟨0, 0, 10, 10⟩⟩,
        ⟨"VALUE", "nb", ⟨0, 10, 10, 20⟩⟩,
        ⟨"VALUE", "fr", ⟨100, 0, 110, 10⟩⟩] : List Span).filter
        (fun f => f.type == "VALUE"),
      v.bbox = ⟨100, 0, 110, 10⟩ ∧
      (⟨"A", "fr", ⟨0, 0, 10, 10⟩, some ⟨100, 0, 110, 10⟩⟩ :
          FieldValuePair).field_value = v.text ∧
      (isRight v.bbox (⟨0, 0, 10, 10⟩ : Box) ||
        isBelow v.bbox (⟨0, 0, 10, 10⟩ : Box)) ∧
      ∀ w ∈ ([⟨"FIELD", "A", ⟨0, 0, 10, 10⟩⟩,
          ⟨"VALUE", "nb", ⟨0, 10, 10, 20⟩⟩,
          ⟨"VALUE", "fr", ⟨100, 0, 110, 10⟩⟩] : List Span).filter
          (fun f => f.type == "VALUE"),
        (isRight w.bbox (⟨0, 0, 10, 10⟩ : Box) ||
          isBelow w.bbox (⟨0, 0, 10, 10⟩ : Box)) →
          (isRight w.bbox (⟨0, 0, 10, 10⟩ : Box) = true →
            isRight v.bbox (⟨0, 0, 10, 10⟩ : Box) = true) ∧
          (isRight v.bbox (⟨0, 0, 10, 10⟩ : Box) =
              isRight w.bbox (⟨0, 0, 10, 10⟩ : Box) →
            dist2 ⟨0, 0, 10, 10⟩ v.bbox ≤ dist2 ⟨0, 0, 10, 10⟩ w.bbox) :=
  pairing_directional_minimality
    [⟨"FIELD", "A", ⟨0, 0, 10, 10⟩⟩,
     ⟨"VALUE", "nb", ⟨0, 10, 10, 20⟩⟩,
     ⟨"VALUE", "fr", ⟨100, 0, 110, 10⟩⟩]
    0 ⟨"FIELD", "A", ⟨0, 0, 10, 10⟩⟩
    ⟨"A", "fr", ⟨0, 0, 10, 10⟩, some ⟨100, 0, 110, 10⟩⟩
    ⟨100, 0, 110, 10⟩
    (by decide) (by decide) (by decide)

/-- **C4**: table extraction is region-guided exactly when layout
analysis has populated results.  If layout analysis has not been run,
`extract_tables` performs a whole-document or page-range scan on the
full path; if `layout_results` holds detected Table regions for some
requested page, the TableReader is invoked per region with the detected
Table bounding boxes of exactly the requested pages that have them. -/
theorem extract_tables_routing (filter : Option (List ℤ))
    (lr : List (ℤ × Layout)) (p : ℤ) (lay : Layout)
    (hmem : (p, lay) ∈ lr) (hne : lay.tables ≠ [])
    (hreq : requested filter p = true) :
    extractTables none filter = .fullScan (pagesStr filter) ∧
    ∃ regions, extractTables (some lr) filter = .regionScan regions ∧
      (p, lay.tables) ∈ regions ∧
      (∀ q ts, (q, ts) ∈ regions →
        requested filter q = true ∧ ts ≠ [] ∧
        ∃ lay', (q, lay') ∈ lr ∧ lay'.tables = ts) ∧
      (∀ q r, (q, r) ∈ tableReaderCalls regions →
        requested filter q = true ∧
        ∃ lay', (q, lay') ∈ lr ∧ r ∈ lay'.tables) := by
  refine ⟨rfl, ?_⟩
  have hlr : lr.isEmpty = false := by
    cases lr with
    | nil => cases hmem
    | cons hd tl => rfl
  have hmemR : (p, lay.tables) ∈ lr.filterMap fun pl =>
      if requested filter pl.1 then
        if pl.2.tables.isEmpty then none else some (pl.1, pl.2.tables)
      else none := by
    refine List.mem_filterMap.2 ⟨(p, lay), hmem, ?_⟩
    rw [if_pos hreq, if_neg (by simpa using hne)]
  have hTR : (lr.filterMap fun pl =>
      if requested filter pl.1 then
        if pl.2.tables.isEmpty then none else some (pl.1, pl.2.tables)
      else none).isEmpty = false := by
    cases h : lr.filterMap fun pl =>
        if requested filter pl.1 then
          if pl.2.tables.isEmpty then none else some (pl.1, pl.2.tables)
        else none with
    | nil => rw [h] at hmemR; cases hmemR
    | cons hd tl => rfl
  refine ⟨_, ?_, hmemR, ?_, ?_⟩
  · show extractTables (some lr) filter = _
    simp only [extractTables, hlr, hTR, Bool.false_eq_true, if_false]
  · intro q ts hqts
    obtain ⟨pl, hpl, hf⟩ := List.mem_filterMap.1 hqts
    split at hf
    next hr =>
      split at hf
      next => cases hf
      next hts =>
        cases hf
        exact ⟨hr, by simpa using hts, pl.2, by simpa using hpl, rfl⟩
    next => cases hf
  · intro q r hqr
    obtain ⟨pl, hpl, hr⟩ := List.mem_flatMap.1 hqr
    obtain ⟨rr, hrr, heq⟩ := List.mem_map.1 hr
    cases heq
    obtain ⟨pl2, hpl2, hf⟩ := List.mem_filterMap.1 hpl
    split at hf
    next hreq2 =>
      split at hf
      next => cases hf
      next =>
        cases hf
        exact ⟨hreq2, pl2.2, by simpa using hpl2, hrr⟩
    next => cases hf

/-- Witness for `extract_tables_routing`: one Table region detected at
page 2, table extraction requested for page 2. -/
theorem extract_tables_routing_witness :
    extractTables none (some [2]) = .fullScan (pagesStr (some [2])) ∧
    ∃ regions,
      extractTables (some [(2, ⟨[⟨1, 2, 3, 4⟩]⟩)]) (some [2]) =
        .regionScan regions ∧
      (2, [(⟨1, 2, 3, 4⟩ : Box)]) ∈ regions ∧
      (∀ q ts, (q, ts) ∈ regions →
        requested (some [2]) q = true ∧ ts ≠ [] ∧
        ∃ lay', (q, lay') ∈ [((2 : ℤ), (⟨[⟨1, 2, 3, 4⟩]⟩ : Layout))] ∧
          lay'.tables = ts) ∧
      (∀ q r, (q, r) ∈ tableReaderCalls regions →
        requested (some [2]) q = true ∧
        ∃ lay', (q, lay') ∈ [((2 : ℤ), (⟨[⟨1, 2, 3, 4⟩]⟩ : Layout))] ∧
          r ∈ lay'.tables) :=
  extract_tables_routing (some [2]) [(2, ⟨[⟨1, 2, 3, 4⟩]⟩)] 2
    ⟨[⟨1, 2, 3, 4⟩]⟩ (by decide) (by decide) (by decide)

/-! ## Dictionary lemmas -/

theorem dlookup_dinsert_self (d : List (ℤ × α)) (k : ℤ) (v : α) :
    dlookup k (dinsert k v d) = some v := by
  induction d with
  | nil => simp [dinsert, dlookup]
  | cons p d ih =>
    by_cases h : p.1 = k
    · simp [dinsert, dlookup, h]
    · simp [dinsert, dlookup, h, ih]

theorem dlookup_dinsert_ne (d : List (ℤ × α)) {k k' : ℤ} (v : α)
    (h : k' ≠ k) : dlookup k' (dinsert k v d) = dlookup k' d := by
  induction d with
  | nil => simp [dinsert, dlookup, h, Ne.symm h]
  | cons p d ih =>
    by_cases hp : p.1 = k
    · simp [dinsert, dlookup, hp, h, Ne.symm h]
    · by_cases hp' : p.1 = k'
      · simp [dinsert, dlookup, hp, hp', h, Ne.symm h]
      · simp [dinsert, dlookup, hp, hp', ih]

/-! ## `extract_text` loop lemmas -/

theorem extractText_warnLog (doc : PDFDoc) (useOcr : Bool) :
    ∀ (nums : List ℤ) (s : TextResult),
      (nums.foldl (extractTextStep doc useOcr) s).warnLog =
        s.warnLog ++ nums.filter (fun n => n ≥ (doc.pages.length : ℤ)) := by
  intro nums
  induction nums with
  | nil => intro s; simp
  | cons n ns ih =>
    intro s
    rw [List.foldl_cons, ih]
    by_cases h : n ≥ (doc.pages.length : ℤ)
    · simp [extractTextStep, h, List.filter_cons]
    · simp [extractTextStep, h, List.filter_cons]

theorem extractText_result_skip (doc : PDFDoc) (useOcr : Bool) (k : ℤ)
    (hk : (doc.pages.length : ℤ) ≤ k) :
    ∀ (nums : List ℤ) (s : TextResult),
      dlookup k (nums.foldl (extractTextStep doc useOcr) s).result =
        dlookup k s.result := by
  intro nums
  induction nums with
  | nil => intro s; rfl
  | cons n ns ih =>
    intro s
    rw [List.foldl_cons, ih]
    by_cases h : n ≥ (doc.pages.length : ℤ)
    · simp [extractTextStep, h]
    · have hne : k ≠ n := by omega
      simp [extractTextStep, h, dlookup_dinsert_ne _ _ hne]

theorem extractText_result_not_mem (doc : PDFDoc) (useOcr : Bool) (k : ℤ) :
    ∀ (nums : List ℤ) (s : TextResult), k ∉ nums →
      dlookup k (nums.foldl (extractTextStep doc useOcr) s).result =
        dlookup k s.result := by
  intro nums
  induction nums with
  | nil => intro s _; rfl
  | cons n ns ih =>
    intro s hk
    have hne : k ≠ n := fun h => hk (h ▸ List.mem_cons_self n ns)
    have hns : k ∉ ns := fun h => hk (List.mem_cons_of_mem n h)
    rw [List.foldl_cons, ih _ hns]
    by_cases h : n ≥ (doc.pages.length : ℤ)
    · simp [extractTextStep, h]
    · simp [extractTextStep, h, dlookup_dinsert_ne _ _ hne]

theorem extractText_result_mem (doc : PDFDoc) (useOcr : Bool) (k : ℤ)
    (hk : k < (doc.pages.length : ℤ)) :
    ∀ (nums : List ℤ) (s : TextResult), k ∈ nums →
      dlookup k (nums.foldl (extractTextStep doc useOcr) s).result =
        some (pageOutputText doc useOcr k) := by
  intro nums
  induction nums with
  | nil => intro s h; cases h
  | cons n ns ih =>
    intro s hk'
    by_cases hmem : k ∈ ns
    · rw [List.foldl_cons]; exact ih _ hmem
    · have hkn : k = n := by
        rcases List.mem_cons.1 hk' with h | h
        · exact h
        · exact absurd h hmem
      subst hkn
      rw [List.foldl_cons, extractText_result_not_mem doc useOcr k ns _ hmem]
      simp [extractTextStep, not_le.2 hk, dlookup_dinsert_self]

theorem count_ocrCallsFor_ne (doc : PDFDoc) (useOcr : Bool) {k n : ℤ}
    (h : k ≠ n) : (ocrCallsFor doc useOcr n).count k = 0 := by
  unfold ocrCallsFor
  rw [List.count_append]
  split <;> split <;>
    simp [List.count_cons, List.count_nil, h, Ne.symm h]

theorem extractText_ocrLog_not_mem (doc : PDFDoc) (useOcr : Bool) (k : ℤ) :
    ∀ (nums : List ℤ) (s : TextResult), k ∉ nums →
      (nums.foldl (extractTextStep doc useOcr) s).ocrLog.count k =
        s.ocrLog.count k := by
  intro nums
  induction nums with
  | nil => intro s _; rfl
  | cons n ns ih =>
    intro s hk
    have hne : k ≠ n := fun h => hk (h ▸ List.mem_cons_self n ns)
    have hns : k ∉ ns := fun h => hk (List.mem_cons_of_mem n h)
    rw [List.foldl_cons, ih _ hns]
    by_cases h : n ≥ (doc.pages.length : ℤ)
    · simp [extractTextStep, h]
    · simp [extractTextStep, h, List.count_append,
        count_ocrCallsFor_ne doc useOcr hne]

theorem extractText_ocrLog_count (doc : PDFDoc) (useOcr : Bool) (k : ℤ)
    (hk : k < (doc.pages.length : ℤ)) :
    ∀ (nums : List ℤ) (s : TextResult), nums.count k = 1 →
      (nums.foldl (extractTextStep doc useOcr) s).ocrLog.count k =
        s.ocrLog.count k + (ocrCallsFor doc useOcr k).count k := by
  intro nums
  induction nums with
  | nil => intro s h; cases h
  | cons n ns ih =>
    intro s hcount
    by_cases hkn : k = n
    · subst hkn
      have hns : k ∉ ns := by
        have := List.count_cons_self k ns
        rw [List.count_cons] at hcount
        simp at hcount
        intro hmem
        have := List.count_pos_iff.2 hmem
        omega
      rw [List.foldl_cons, extractText_ocrLog_not_mem doc useOcr k ns _ hns]
      simp [extractTextStep, not_le.2 hk, List.count_append]
    · have : ns.count k = 1 := by
        rw [List.count_cons] at hcount
        simpa [Ne.symm hkn] using hcount
      rw [List.foldl_cons, ih _ this]
      by_cases h : n ≥ (doc.pages.length : ℤ)
      · simp [extractTextStep, h]
      · simp [extractTextStep, h, List.count_append,
          count_ocrCallsFor_ne doc useOcr hkn]

/-- **C1**: with `use_ocr=False`, a processed page whose native text is
non-whitespace is mapped to that native text unchanged and OCR is never
invoked for it; a page whose native text is empty or whitespace-only
triggers OCR exactly once and its output (even empty) is stored. -/
theorem extract_text_native_else_ocr_once (doc : PDFDoc) (filter : List ℤ)
    (p : ℤ) (hp : 0 ≤ p) (hlt : p < (doc.pages.length : ℤ))
    (hcount : filter.count p = 1) :
    (strTrim (pageText doc.pages p) ≠ "" →
      dlookup p (extractText doc false (some filter)).result =
        some (pageText doc.pages p) ∧
      (extractText doc false (some filter)).ocrLog.count p = 0) ∧
    (strTrim (pageText doc.pages p) = "" →
      dlookup p (extractText doc false (some filter)).result =
        some (doc.ocr p) ∧
      (extractText doc false (some filter)).ocrLog.count p = 1) := by
  have hmem : p ∈ filter := List.count_pos_iff.1 (by omega)
  have hres := extractText_result_mem doc false p hlt filter ⟨[], [], []⟩ hmem
  have hocr := extractText_ocrLog_count doc false p hlt filter ⟨[], [], []⟩ hcount
  constructor
  · intro hnat
    have h1 : pageOutputText doc false p = pageText doc.pages p := by
      simp [pageOutputText, firstChoiceText, hnat]
    have h2 : (ocrCallsFor doc false p).count p = 0 := by
      simp [ocrCallsFor, firstChoiceText, hnat]
    constructor
    · show dlookup p
        (filter.foldl (extractTextStep doc false) ⟨[], [], []⟩).result = _
      rw [hres, h1]
    · show (filter.foldl (extractTextStep doc false)
        ⟨[], [], []⟩).ocrLog.count p = 0
      rw [hocr, h2]
      rfl
  · intro hnat
    have h1 : pageOutputText doc false p = doc.ocr p := by
      simp [pageOutputText, firstChoiceText, hnat]
    have h2 : (ocrCallsFor doc false p).count p = 1 := by
      simp [ocrCallsFor, firstChoiceText, hnat]
    constructor
    · show dlookup p
        (filter.foldl (extractTextStep doc false) ⟨[], [], []⟩).result = _
      rw [hres, h1]
    · show (filter.foldl (extractTextStep doc false)
        ⟨[], [], []⟩).ocrLog.count p = 1
      rw [hocr, h2]
      rfl

/-- Witness for `extract_text_native_else_ocr_once`: a two-page document
whose second page has a whitespace-only native layer; the OCR oracle
returns the empty string and that empty output is stored. -/
theorem extract_text_native_else_ocr_once_witness :
    (strTrim (pageText ["hi", " "] 1) ≠ "" →
      dlookup 1 (extractText ⟨["hi", " "], fun _ => ""⟩ false
          (some [0, 1])).result = some (pageText ["hi", " "] 1) ∧
      (extractText ⟨["hi", " "], fun _ => ""⟩ false
          (some [0, 1])).ocrLog.count 1 = 0) ∧
    (strTrim (pageText ["hi", " "] 1) = "" →
      dlookup 1 (extractText ⟨["hi", " "], fun _ => ""⟩ false
          (some [0, 1])).result =
        some ((⟨["hi", " "], fun _ => ""⟩ : PDFDoc).ocr 1) ∧
      (extractText ⟨["hi", " "], fun _ => ""⟩ false
          (some [0, 1])).ocrLog.count 1 = 1) :=
  extract_text_native_else_ocr_once ⟨["hi", " "], fun _ => ""⟩ [0, 1] 1
    (by decide) (by decide) (by decide)

/-! ## `analyze_layout` and `extract_form_fields` loop lemmas -/

theorem resolveIndex_nonneg {count : ℕ} {n : ℤ} (h : 0 ≤ n) :
    resolveIndex count n = n := by
  simp [resolveIndex, not_lt.2 h]

theorem resolveIndex_neg {count : ℕ} {n : ℤ} (h1 : -(count : ℤ) ≤ n)
    (h2 : n < 0) : resolveIndex count n = (count : ℤ) + n := by
  have h0 : 0 ≤ n + count := by omega
  have hlt : n + count < count := by omega
  simp only [resolveIndex, if_pos h2]
  rw [show n % (count : ℤ) = (n + count) % count from
      (Int.add_emod_self (a := n) (b := (count : ℤ))).symm,
    Int.emod_eq_of_lt h0 hlt]
  omega

theorem analyzeLayout_warnLog (count : ℕ) (layoutOf : ℤ → Layout) :
    ∀ (nums : List ℤ) (s : LayoutResult),
      (nums.foldl (analyzeLayoutStep count layoutOf) s).warnLog =
        s.warnLog ++ nums.filter (fun n => n ≥ (count : ℤ)) := by
  intro nums
  induction nums with
  | nil => intro s; simp
  | cons n ns ih =>
    intro s
    rw [List.foldl_cons, ih]
    by_cases h : n ≥ (count : ℤ)
    · simp [analyzeLayoutStep, h, List.filter_cons]
    · simp [analyzeLayoutStep, h, List.filter_cons]

theorem analyzeLayout_result_skip (count : ℕ) (layoutOf : ℤ → Layout)
    (k : ℤ) (hk : (count : ℤ) ≤ k) :
    ∀ (nums : List ℤ) (s : LayoutResult),
      dlookup k (nums.foldl (analyzeLayoutStep count layoutOf) s).result =
        dlookup k s.result := by
  intro nums
  induction nums with
  | nil => intro s; rfl
  | cons n ns ih =>
    intro s
    rw [List.foldl_cons, ih]
    by_cases h : n ≥ (count : ℤ)
    · simp [analyzeLayoutStep, h]
    · have hne : k ≠ n := by omega
      simp [analyzeLayoutStep, h, dlookup_dinsert_ne _ _ hne]

theorem analyzeLayout_result_not_mem (count : ℕ) (layoutOf : ℤ → Layout)
    (k : ℤ) :
    ∀ (nums : List ℤ) (s : LayoutResult), k ∉ nums →
      dlookup k (nums.foldl (analyzeLayoutStep count layoutOf) s).result =
        dlookup k s.result := by
  intro nums
  induction nums with
  | nil => intro s _; rfl
  | cons n ns ih =>
    intro s hk
    have hne : k ≠ n := fun h => hk (h ▸ List.mem_cons_self n ns)
    have hns : k ∉ ns := fun h => hk (List.mem_cons_of_mem n h)
    rw [List.foldl_cons, ih _ hns]
    by_cases h : n ≥ (count : ℤ)
    · simp [analyzeLayoutStep, h]
    · simp [analyzeLayoutStep, h, dlookup_dinsert_ne _ _ hne]

theorem analyzeLayout_result_mem (count : ℕ) (layoutOf : ℤ → Layout)
    (k : ℤ) (hk : k < (count : ℤ)) :
    ∀ (nums : List ℤ) (s : LayoutResult), k ∈ nums →
      dlookup k (nums.foldl (analyzeLayoutStep count layoutOf) s).result =
        some (layoutOf (resolveIndex count k)) := by
  intro nums
  induction nums with
  | nil => intro s h; cases h
  | cons n ns ih =>
    intro s hk'
    by_cases hmem : k ∈ ns
    · rw [List.foldl_cons]; exact ih _ hmem
    · have hkn : k = n := by
        rcases List.mem_cons.1 hk' with h | h
        · exact h
        · exact absurd h hmem
      subst hkn
      rw [List.foldl_cons, analyzeLayout_result_not_mem count layoutOf k ns _ hmem]
      simp [analyzeLayoutStep, not_le.2 hk, dlookup_dinsert_self]

theorem ffLoop_pure (labelMap : ℕ → String) (count : ℕ)
    (toksOf : ℤ → List Tok) :
    ∀ (nums : List ℤ) (acc : List (ℤ × List FieldValuePair)),
      ffLoop labelMap count (fun m => .ok (toksOf m)) nums acc =
        .ok (nums.foldl (ffStepPure labelMap count toksOf) acc) := by
  intro nums
  induction nums with
  | nil => intro acc; rfl
  | cons n ns ih =>
    intro acc
    by_cases h : n ≥ (count : ℤ)
    · simp [ffLoop, ffStepPure, h, ih]
    · simp [ffLoop, ffStepPure, h, ih]

theorem extractFormFields_pure (labelMap : ℕ → String) (count : ℕ)
    (toksOf : ℤ → List Tok) (filterL : List ℤ) :
    extractFormFields labelMap count (fun m => .ok (toksOf m))
        (some filterL) =
      filterL.foldl (ffStepPure labelMap count toksOf) [] := by
  show (match ffLoop labelMap count (fun m => Except.ok (toksOf m))
      filterL [] with
    | Except.ok d => d
    | Except.error _ => []) = _
  rw [ffLoop_pure]

theorem ffFold_not_mem (labelMap : ℕ → String) (count : ℕ)
    (toksOf : ℤ → List Tok) (k : ℤ) :
    ∀ (nums : List ℤ) (acc : List (ℤ × List FieldValuePair)), k ∉ nums →
      dlookup k (nums.foldl (ffStepPure labelMap count toksOf) acc) =
        dlookup k acc := by
  intro nums
  induction nums with
  | nil => intro acc _; rfl
  | cons n ns ih =>
    intro acc hk
    have hne : k ≠ n := fun h => hk (h ▸ List.mem_cons_self n ns)
    have hns : k ∉ ns := fun h => hk (List.mem_cons_of_mem n h)
    rw [List.foldl_cons, ih _ hns]
    by_cases h : n ≥ (count : ℤ)
    · simp [ffStepPure, h]
    · simp [ffStepPure, h, dlookup_dinsert_ne _ _ hne]

theorem ffFold_skip (labelMap : ℕ → String) (count : ℕ)
    (toksOf : ℤ → List Tok) (k : ℤ) (hk : (count : ℤ) ≤ k) :
    ∀ (nums : List ℤ) (acc : List (ℤ × List FieldValuePair)),
      dlookup k (nums.foldl (ffStepPure labelMap count toksOf) acc) =
        dlookup k acc := by
  intro nums
  induction nums with
  | nil => intro acc; rfl
  | cons n ns ih =>
    intro acc
    rw [List.foldl_cons, ih]
    by_cases h : n ≥ (count : ℤ)
    · simp [ffStepPure, h]
    · have hne : k ≠ n := by omega
      simp [ffStepPure, h, dlookup_dinsert_ne _ _ hne]

theorem ffFold_mem (labelMap : ℕ → String) (count : ℕ)
    (toksOf : ℤ → List Tok) (k : ℤ) (hk : k < (count : ℤ)) :
    ∀ (nums : List ℤ) (acc : List (ℤ × List FieldValuePair)), k ∈ nums →
      dlookup k (nums.foldl (ffStepPure labelMap count toksOf) acc) =
        some (processTokens labelMap (toksOf (resolveIndex count k))) := by
  intro nums
  induction nums with
  | nil => intro acc h; cases h
  | cons n ns ih =>
    intro acc hk'
    by_cases hmem : k ∈ ns
    · rw [List.foldl_cons]; exact ih _ hmem
    · have hkn : k = n := by
        rcases List.mem_cons.1 hk' with h | h
        · exact h
        · exact absurd h hmem
      subst hkn
      rw [List.foldl_cons, ffFold_not_mem labelMap count toksOf k ns _ hmem]
      simp [ffStepPure, not_le.2 hk, dlookup_dinsert_self]

/-- **C9**: a page filter entry that does not exist (index at or above
the page count) is skipped with a warning by text extraction, layout
analysis and form-field extraction, never raising, and the results for
the valid indices of the same filter are still computed and returned. -/
theorem out_of_range_page_skipped (doc : PDFDoc) (useOcr : Bool)
    (layoutOf : ℤ → Layout) (labelMap : ℕ → String) (toksOf : ℤ → List Tok)
    (filter : List ℤ) (p : ℤ)
    (hp : p ∈ filter) (hge : (doc.pages.length : ℤ) ≤ p) :
    (p ∈ (extractText doc useOcr (some filter)).warnLog ∧
      dlookup p (extractText doc useOcr (some filter)).result = none) ∧
    (p ∈ (analyzeLayout doc.pages.length layoutOf (some filter)).warnLog ∧
      dlookup p (analyzeLayout doc.pages.length layoutOf
        (some filter)).result = none) ∧
    dlookup p (extractFormFields labelMap doc.pages.length
      (fun m => .ok (toksOf m)) (some filter)) = none ∧
    ∀ q ∈ filter, 0 ≤ q → q < (doc.pages.length : ℤ) →
      dlookup q (extractText doc useOcr (some filter)).result =
        some (pageOutputText doc useOcr q) ∧
      dlookup q (analyzeLayout doc.pages.length layoutOf
        (some filter)).result = some (layoutOf q) ∧
      dlookup q (extractFormFields labelMap doc.pages.length
        (fun m => .ok (toksOf m)) (some filter)) =
        some (processTokens labelMap (toksOf q)) := by
  have hT : extractText doc useOcr (some filter) =
      filter.foldl (extractTextStep doc useOcr) ⟨[], [], []⟩ := rfl
  have hL : analyzeLayout doc.pages.length layoutOf (some filter) =
      filter.foldl (analyzeLayoutStep doc.pages.length layoutOf) ⟨[], []⟩ :=
    rfl
  have hF := extractFormFields_pure labelMap doc.pages.length toksOf filter
  refine ⟨⟨?_, ?_⟩, ⟨?_, ?_⟩, ?_, ?_⟩
  · rw [hT, extractText_warnLog]
    exact List.mem_append_right _ (List.mem_filter.2 ⟨hp, by simpa using hge⟩)
  · rw [hT, extractText_result_skip doc useOcr p hge]
    rfl
  · rw [hL, analyzeLayout_warnLog]
    exact List.mem_append_right _ (List.mem_filter.2 ⟨hp, by simpa using hge⟩)
  · rw [hL, analyzeLayout_result_skip doc.pages.length layoutOf p hge]
    rfl
  · rw [hF, ffFold_skip labelMap doc.pages.length toksOf p hge]
    rfl
  · intro q hq hq0 hqlt
    refine ⟨?_, ?_, ?_⟩
    · rw [hT, extractText_result_mem doc useOcr q hqlt filter _ hq]
    · rw [hL, analyzeLayout_result_mem doc.pages.length layoutOf q hqlt
        filter _ hq, resolveIndex_nonneg hq0]
    · rw [hF, ffFold_mem labelMap doc.pages.length toksOf q hqlt filter _ hq,
        resolveIndex_nonneg hq0]

/-- Witness for `out_of_range_page_skipped`: pages `[0, 99]` on a
one-page document; page 99 is skipped, page 0 is still returned. -/
theorem out_of_range_page_skipped_witness :
    (99 ∈ (extractText ⟨["a"], fun _ => ""⟩ false (some [0, 99])).warnLog ∧
      dlookup 99 (extractText ⟨["a"], fun _ => ""⟩ false
        (some [0, 99])).result = none) ∧
    (99 ∈ (analyzeLayout (["a"] : List String).length (fun _ => ⟨[]⟩)
        (some [0, 99])).warnLog ∧
      dlookup 99 (analyzeLayout (["a"] : List String).length (fun _ => ⟨[]⟩)
        (some [0, 99])).result = none) ∧
    dlookup 99 (extractFormFields defaultLabels (["a"] : List String).length
      (fun m => .ok ((fun _ => []) m)) (some [0, 99])) = none ∧
    ∀ q ∈ ([0, 99] : List ℤ), 0 ≤ q →
      q < (((["a"] : List String).length : ℕ) : ℤ) →
      dlookup q (extractText ⟨["a"], fun _ => ""⟩ false
          (some [0, 99])).result =
        some (pageOutputText ⟨["a"], fun _ => ""⟩ false q) ∧
      dlookup q (analyzeLayout (["a"] : List String).length (fun _ => ⟨[]⟩)
          (some [0, 99])).result = some ((fun _ => (⟨[]⟩ : Layout)) q) ∧
      dlookup q (extractFormFields defaultLabels
          (["a"] : List String).length (fun m => .ok ((fun _ => []) m))
          (some [0, 99])) =
        some (processTokens defaultLabels ((fun _ => []) q)) :=
  out_of_range_page_skipped ⟨["a"], fun _ => ""⟩ false (fun _ => ⟨[]⟩)
    defaultLabels (fun _ => []) [0, 99] 99 (by decide) (by decide)

/-- **C10**: the page-bound check tests only the upper bound, so a
negative index `n` with `-page_count ≤ n < 0` is not skipped: the page
at position `page_count + n` is processed via Python negative indexing
and the result is stored under the negative key `n`. -/
theorem negative_index_processed (doc : PDFDoc) (useOcr : Bool)
    (layoutOf : ℤ → Layout) (labelMap : ℕ → String) (toksOf : ℤ → List Tok)
    (filter : List ℤ) (n : ℤ)
    (hmem : n ∈ filter) (h1 : -(doc.pages.length : ℤ) ≤ n) (h2 : n < 0) :
    n ∉ (extractText doc useOcr (some filter)).warnLog ∧
    dlookup n (extractText doc useOcr (some filter)).result =
      some (pageOutputText doc useOcr n) ∧
    pageText doc.pages n =
      doc.pages.getD ((doc.pages.length : ℤ) + n).toNat "" ∧
    dlookup n (analyzeLayout doc.pages.length layoutOf
        (some filter)).result =
      some (layoutOf ((doc.pages.length : ℤ) + n)) ∧
    dlookup n (extractFormFields labelMap doc.pages.length
        (fun m => .ok (toksOf m)) (some filter)) =
      some (processTokens labelMap (toksOf ((doc.pages.length : ℤ) + n))) := by
  have hT : extractText doc useOcr (some filter) =
      filter.foldl (extractTextStep doc useOcr) ⟨[], [], []⟩ := rfl
  have hL : analyzeLayout doc.pages.length layoutOf (some filter) =
      filter.foldl (analyzeLayoutStep doc.pages.length layoutOf) ⟨[], []⟩ :=
    rfl
  have hF := extractFormFields_pure labelMap doc.pages.length toksOf filter
  have hlt : n < (doc.pages.length : ℤ) := by omega
  refine ⟨?_, ?_, ?_, ?_, ?_⟩
  · rw [hT, extractText_warnLog]
    intro hcon
    rcases List.mem_append.1 hcon with hcon | hcon
    · cases hcon
    · have := (List.mem_filter.1 hcon).2
      simp at this
      omega
  · rw [hT, extractText_result_mem doc useOcr n hlt filter _ hmem]
  · unfold pageText
    rw [resolveIndex_neg h1 h2]
  · rw [hL, analyzeLayout_result_mem doc.pages.length layoutOf n hlt
      filter _ hmem, resolveIndex_neg h1 h2]
  · rw [hF, ffFold_mem labelMap doc.pages.length toksOf n hlt filter _ hmem,
      resolveIndex_neg h1 h2]

/-- Witness for `negative_index_processed`: index `-1` on a two-page
document addresses the last page and is stored under key `-1`. -/
theorem negative_index_processed_witness :
    (-1 : ℤ) ∉ (extractText ⟨["a", "b"], fun _ => ""⟩ false
      (some [-1])).warnLog ∧
    dlookup (-1) (extractText ⟨["a", "b"], fun _ => ""⟩ false
        (some [-1])).result =
      some (pageOutputText ⟨["a", "b"], fun _ => ""⟩ false (-1)) ∧
    pageText ["a", "b"] (-1) =
      (["a", "b"] : List String).getD
        (((["a", "b"] : List String).length : ℤ) + -1).toNat "" ∧
    dlookup (-1) (analyzeLayout (["a", "b"] : List String).length
        (fun _ => ⟨[]⟩) (some [-1])).result =
      some ((fun _ => (⟨[]⟩ : Layout))
        (((["a", "b"] : List String).length : ℤ) + -1)) ∧
    dlookup (-1) (extractFormFields defaultLabels
        (["a", "b"] : List String).length (fun m => .ok ((fun _ => []) m))
        (some [-1])) =
      some (processTokens defaultLabels
        ((fun _ => []) (((["a", "b"] : List String).length : ℤ) + -1))) :=
  negative_index_processed ⟨["a", "b"], fun _ => ""⟩ false (fun _ => ⟨[]⟩)
    defaultLabels (fun _ => []) [-1] (-1) (by decide) (by decide) (by decide)

/-! ## Failure-boundary lemmas -/

theorem extractTextWithOcrE_ok {outcome : ℤ → OcrOutcome} {n : ℤ}
    (h : outcome n ≠ .rasterRaises) :
    extractTextWithOcrE outcome n = .ok (ocrValue (outcome n)) := by
  cases ho : outcome n with
  | rasterRaises => exact absurd ho h
  | noImages => simp [extractTextWithOcrE, ocrValue, ho]
  | recognizeRaises => simp [extractTextWithOcrE, ocrValue, ho]
  | recognized s => simp [extractTextWithOcrE, ocrValue, ho]

theorem extractTextELoop_no_raster (pages : List String)
    (outcome : ℤ → OcrOutcome) (useOcr : Bool)
    (hnr : ∀ m, outcome m ≠ .rasterRaises) :
    ∀ (nums : List ℤ) (s : TextResult),
      extractTextELoop pages outcome useOcr nums s.result =
        .ok ((nums.foldl
          (extractTextStep ⟨pages, fun m => ocrValue (outcome m)⟩ useOcr)
          s).result) := by
  intro nums
  induction nums with
  | nil => intro s; rfl
  | cons n ns ih =>
    intro s
    have hocr := extractTextWithOcrE_ok (hnr n)
    rw [List.foldl_cons]
    have hih := ih (extractTextStep ⟨pages, fun m => ocrValue (outcome m)⟩
      useOcr s n)
    by_cases hc : n ≥ (pages.length : ℤ)
    · have hstep : (extractTextStep ⟨pages, fun m => ocrValue (outcome m)⟩
          useOcr s n).result = s.result := by
        simp [extractTextStep, hc]
      rw [hstep] at hih
      rw [extractTextELoop, if_pos hc]
      exact hih
    · have hstep : (extractTextStep ⟨pages, fun m => ocrValue (outcome m)⟩
          useOcr s n).result =
          dinsert n (pageOutputText ⟨pages, fun m => ocrValue (outcome m)⟩
            useOcr n) s.result := by
        simp [extractTextStep, hc]
      rw [hstep] at hih
      rw [extractTextELoop, if_neg hc]
      cases hu : useOcr with
      | true =>
          rw [if_pos rfl, hocr]
          rw [hu] at hih
          have hout : pageOutputText ⟨pages, fun m => ocrValue (outcome m)⟩
              true n = ocrValue (outcome n) := by
            simp [pageOutputText, firstChoiceText]
          rw [hout] at hih
          exact hih
      | false =>
          rw [if_neg (by simp)]
          rw [hu] at hih
          by_cases ht : strTrim (pageText pages n) = ""
          · rw [if_pos ht, hocr]
            have hout : pageOutputText ⟨pages, fun m => ocrValue (outcome m)⟩
                false n = ocrValue (outcome n) := by
              simp [pageOutputText, firstChoiceText, ht]
            rw [hout] at hih
            exact hih
          · rw [if_neg ht]
            have hout : pageOutputText ⟨pages, fun m => ocrValue (outcome m)⟩
                false n = pageText pages n := by
              simp [pageOutputText, firstChoiceText, ht]
            rw [hout] at hih
            exact hih

theorem ffLoop_error_of_mem (labelMap : ℕ → String) (count : ℕ)
    (classify : ℤ → Except Unit (List Tok)) :
    ∀ (nums : List ℤ) (acc : List (ℤ × List FieldValuePair)) (n : ℤ),
      n ∈ nums → n < (count : ℤ) →
      classify (resolveIndex count n) = .error () →
      ffLoop labelMap count classify nums acc = .error () := by
  intro nums
  induction nums with
  | nil => intro acc n h; cases h
  | cons m ms ih =>
    intro acc n hmem hlt herr
    rcases List.mem_cons.1 hmem with rfl | hmem'
    · rw [ffLoop, if_neg (not_le.2 hlt), herr]
    · by_cases hm : m ≥ (count : ℤ)
      · rw [ffLoop, if_pos hm]
        exact ih _ n hmem' hlt herr
      · cases hcl : classify (resolveIndex count m) with
        | error e => rw [ffLoop, if_neg hm, hcl]
        | ok toks =>
            rw [ffLoop, if_neg hm, hcl]
            exact ih _ n hmem' hlt herr

/-- **C3** as stated is false on the code.  A rasterization exception
(`convert_from_path`, outside any `try`) on page 1 aborts the whole
`extract_text` call — page 0 was already processed and page 2 never is,
yet the call returns no per-page results at all.  Likewise, a
classification exception on page 1 of `extract_form_fields` is caught
only by the handler wrapping the whole document loop, which returns the
empty dict, discarding page 0's already-computed result (extracting
page 0 alone succeeds). -/
theorem stage_failure_aborts_document_counterexample :
    extractTextE ["a", " ", "c"]
      (fun n => if n = 1 then .rasterRaises else .recognized "x")
      false none = .error () ∧
    extractFormFields defaultLabels 2
      (fun m => if m = 0 then .ok [⟨"Name", 7, ⟨0, 0, 4, 1⟩⟩]
                else .error ()) (some [0, 1]) = [] ∧
    extractFormFields defaultLabels 2
      (fun m => if m = 0 then .ok [⟨"Name", 7, ⟨0, 0, 4, 1⟩⟩]
                else .error ()) (some [0]) =
      [(0, [⟨"Name", "", ⟨0, 0, 4, 1⟩, none⟩])] := by
  refine ⟨rfl, rfl, ?_⟩
  decide

/-- **C3 (amended)**: only the recognition step (`pytesseract`) and an
empty rasterization result are degraded to an empty string per call; a
rasterization exception propagates out of `extract_text` and aborts the
whole call (when no rasterization exception occurs, the fallible run
agrees with the pure per-page model), and a classification exception in
`extract_form_fields` is caught at the document boundary, returning an
empty mapping that discards all per-page results of that invocation. -/
theorem stage_failure_boundaries (pages : List String)
    (outcome : ℤ → OcrOutcome) (useOcr : Bool) (filterL : List ℤ)
    (labelMap : ℕ → String) (count : ℕ)
    (classify : ℤ → Except Unit (List Tok)) :
    (∀ n, outcome n = .recognizeRaises →
      extractTextWithOcrE outcome n = .ok "") ∧
    (∀ n, outcome n = .noImages →
      extractTextWithOcrE outcome n = .ok "") ∧
    (∀ n, outcome n = .rasterRaises →
      extractTextWithOcrE outcome n = .error ()) ∧
    ((∀ m, outcome m ≠ .rasterRaises) →
      extractTextE pages outcome useOcr (some filterL) =
        .ok ((extractText ⟨pages, fun m => ocrValue (outcome m)⟩ useOcr
          (some filterL)).result)) ∧
    (∀ n ∈ filterL, n < (count : ℤ) →
      classify (resolveIndex count n) = .error () →
      extractFormFields labelMap count classify (some filterL) = []) := by
  refine ⟨?_, ?_, ?_, ?_, ?_⟩
  · intro n h
    simp [extractTextWithOcrE, h]
  · intro n h
    simp [extractTextWithOcrE, h]
  · intro n h
    simp [extractTextWithOcrE, h]
  · intro hnr
    exact extractTextELoop_no_raster pages outcome useOcr hnr filterL
      ⟨[], [], []⟩
  · intro n hmem hlt herr
    show (match ffLoop labelMap count classify filterL [] with
      | Except.ok d => d
      | Except.error _ => []) = []
    rw [ffLoop_error_of_mem labelMap count classify filterL [] n hmem hlt
      herr]

/-- Witness for `stage_failure_boundaries`: a raster-exception-free run
agrees with the pure model, and one failing classification empties the
whole form-extraction result. -/
theorem stage_failure_boundaries_witness :
    extractTextE ["a"] (fun _ => .recognized "x") true (some [0]) =
      .ok ((extractText ⟨["a"],
        fun m => ocrValue ((fun _ => OcrOutcome.recognized "x") m)⟩ true
        (some [0])).result) ∧
    extractFormFields defaultLabels 1 (fun _ => .error ()) (some [0]) =
      [] :=
  ⟨(stage_failure_boundaries ["a"] (fun _ => .recognized "x") true [0]
      defaultLabels 1 (fun _ => .error ())).2.2.2.1
      (fun _ h => OcrOutcome.noConfusion h),
   (stage_failure_boundaries ["a"] (fun _ => .recognized "x") true [0]
      defaultLabels 1 (fun _ => .error ())).2.2.2.2 0 (by decide)
      (by decide) rfl⟩

/-- **C8** as stated is false on the code: `extract_entities` checks
only the truthiness of `self.extracted_text`, not per-page coverage.
With text previously extracted for page 0 only, requesting entities for
the existing page 3 (whose native text is non-empty) re-extracts
nothing and hands the recognizer an empty mapping. -/
theorem entities_stale_text_counterexample :
    (extractEntities ⟨["a", "b", "c", "d"], fun _ => ""⟩ false
        (some [(0, "a")]) (some [3])).2 = [] ∧
    (extractEntities ⟨["a", "b", "c", "d"], fun _ => ""⟩ false
        (some [(0, "a")]) (some [3])).1 = some [(0, "a")] ∧
    (3 : ℤ) < ((["a", "b", "c", "d"] : List String).length : ℤ) ∧
    strTrim (pageText ["a", "b", "c", "d"] 3) ≠ "" := by
  refine ⟨rfl, rfl, by decide, by decide⟩

/-- **C8 (amended)**: text extraction is triggered only when no text
has been extracted at all (`extracted_text` is `None` or empty), in
which case it runs for the requested pages; in every case the text
passed to the entity recognizer is the current mapping filtered to
exactly the requested page subset — pages requested but absent from a
previously populated mapping are silently missing. -/
theorem entities_trigger_and_filter (doc : PDFDoc) (useOcr : Bool)
    (st : Option (List (ℤ × String))) (filterL : List ℤ) :
    (textFalsy st = true →
      extractEntities doc useOcr st (some filterL) =
        (some (extractText doc useOcr (some filterL)).result,
         (extractText doc useOcr (some filterL)).result.filter
           (fun p => filterL.contains p.1))) ∧
    (∀ d, st = some d → textFalsy st = false →
      extractEntities doc useOcr st (some filterL) =
        (st, d.filter (fun p => filterL.contains p.1))) ∧
    ∀ pr ∈ (extractEntities doc useOcr st (some filterL)).2,
      pr.1 ∈ filterL := by
  refine ⟨?_, ?_, ?_⟩
  · intro h
    simp [extractEntities, h]
  · intro d hd h
    subst hd
    simp [extractEntities, h]
  · intro pr hpr
    unfold extractEntities at hpr
    rcases hst : (if textFalsy st then
        some (extractText doc useOcr (some filterL)).result else st) with
      _ | d
    · rw [hst] at hpr
      simp at hpr
    · rw [hst] at hpr
      simp only at hpr
      have := (List.mem_filter.1 hpr).2
      simpa using this

/-- Witness for `entities_trigger_and_filter`: with no text extracted
yet, entity extraction for page 0 first extracts text for page 0 and
passes exactly that subset on. -/
theorem entities_trigger_and_filter_witness :
    extractEntities ⟨["a"], fun _ => ""⟩ false none (some [0]) =
      (some (extractText ⟨["a"], fun _ => ""⟩ false (some [0])).result,
       (extractText ⟨["a"], fun _ => ""⟩ false (some [0])).result.filter
         (fun p => [(0 : ℤ)].contains p.1)) :=
  (entities_trigger_and_filter ⟨["a"], fun _ => ""⟩ false none [0]).1 rfl

/-! ## Decoding invariant lemmas -/

theorem inputPairs_append (toks : List Tok) (tok : Tok) :
    inputPairs (toks ++ [tok]) =
      inputPairs toks ++ [(tok.text, tok.box)] := by
  simp [inputPairs]

theorem concatStripped_singleton (x : String × Box) :
    concatStripped [x] = stripHash x.1 := by
  simp [concatStripped]

theorem concatStripped_append (ts : List (String × Box))
    (x : String × Box) :
    concatStripped (ts ++ [x]) = concatStripped ts ++ stripHash x.1 := by
  induction ts with
  | nil => simp [concatStripped]
  | cons y ys ih => simp [concatStripped, ih, String.append_assoc]

theorem unionList_append (b : Box) (bs : List Box) (c : Box) :
    unionList b (bs ++ [c]) = boxUnion (unionList b bs) c := by
  simp [unionList, List.foldl_append]

theorem unionList_eq_boxListUnion (bs : List Box) :
    ∀ b, unionList b bs = boxListUnion b bs := by
  induction bs with
  | nil => intro b; rfl
  | cons c cs ih =>
      intro b
      show unionList (boxUnion b c) cs = _
      rw [ih (boxUnion b c)]
      rfl

theorem SpanFrom_mono {pairs : List (String × Box)} (x : String × Box)
    {sp : Span} (h : SpanFrom pairs sp) : SpanFrom (pairs ++ [x]) sp := by
  obtain ⟨t0, ts, hsub, ht, hb⟩ := h
  exact ⟨t0, ts, hsub.trans (List.sublist_append_left pairs [x]), ht, hb⟩

theorem CurFrom_mono {pairs : List (String × Box)} (x : String × Box)
    {cur : Option (String × String × Box)} (h : CurFrom pairs cur) :
    CurFrom (pairs ++ [x]) cur := by
  cases cur with
  | none => trivial
  | some etb =>
      obtain ⟨e, t, b⟩ := etb
      obtain ⟨t0, ts, hsub, ht, hb⟩ := h
      exact ⟨t0, ts, hsub.trans (List.sublist_append_left pairs [x]), ht, hb⟩

theorem emitCur_inv {pairs : List (String × Box)} {fields : List Span}
    {cur : Option (String × String × Box)}
    (hf : ∀ sp ∈ fields, SpanFrom pairs sp) (hc : CurFrom pairs cur) :
    ∀ sp ∈ emitCur fields cur, SpanFrom pairs sp := by
  cases cur with
  | none => exact hf
  | some etb =>
      obtain ⟨e, t, b⟩ := etb
      intro sp hsp
      simp only [emitCur] at hsp
      by_cases ht : t ≠ ""
      · rw [if_pos ht] at hsp
        rcases List.mem_append.1 hsp with h | h
        · exact hf sp h
        · obtain ⟨t0, ts, hsub, htt, hbb⟩ := hc
          rcases List.mem_singleton.1 h with rfl
          exact ⟨t0, ts, hsub, by simp [htt], by simp [hbb]⟩
      · rw [if_neg ht] at hsp
        exact hf sp hsp

theorem decodeStep_inv (labelMap : ℕ → String) (pre : List Tok) (tok : Tok)
    (s : DecSt)
    (hf : ∀ sp ∈ s.fields, SpanFrom (inputPairs pre) sp)
    (hc : CurFrom (inputPairs pre) s.cur) :
    (∀ sp ∈ (decodeStep labelMap s tok).fields,
        SpanFrom (inputPairs (pre ++ [tok])) sp) ∧
    CurFrom (inputPairs (pre ++ [tok])) (decodeStep labelMap s tok).cur := by
  have hf' : ∀ sp ∈ s.fields, SpanFrom (inputPairs (pre ++ [tok])) sp := by
    intro sp h
    rw [inputPairs_append]
    exact SpanFrom_mono _ (hf sp h)
  have hc' : CurFrom (inputPairs (pre ++ [tok])) s.cur := by
    rw [inputPairs_append]
    exact CurFrom_mono _ hc
  have hemit : ∀ sp ∈ emitCur s.fields s.cur,
      SpanFrom (inputPairs (pre ++ [tok])) sp := by
    intro sp h
    rw [inputPairs_append]
    exact SpanFrom_mono _ (emitCur_inv hf hc sp h)
  have hcurB : CurFrom (inputPairs (pre ++ [tok]))
      (some ((labelMap tok.pred).drop 2, strReplace tok.text "##" "",
        tok.box)) := by
    refine ⟨(tok.text, tok.box), [], ?_, ?_, rfl⟩
    · rw [inputPairs_append]
      exact List.sublist_append_right _ _
    · rw [concatStripped_singleton]
      rfl
  unfold decodeStep
  by_cases h1 : specialTok tok.text = true
  · rw [if_pos h1]
    exact ⟨hf', hc'⟩
  · rw [if_neg h1]
    by_cases h2 : strStartsWith (labelMap tok.pred) "B-" = true
    · rw [if_pos h2]
      exact ⟨hemit, hcurB⟩
    · rw [if_neg h2]
      by_cases h3 : (strStartsWith (labelMap tok.pred) "I-" &&
          (match s.cur with
           | some (e, _, _) => e == (labelMap tok.pred).drop 2
           | none => false)) = true
      · rw [if_pos h3]
        rcases hcur : s.cur with _ | ⟨e, t, b⟩
        · rw [hcur] at h3
          simp at h3
        · rw [hcur] at hc
          obtain ⟨t0, ts, hsub, ht, hb⟩ := hc
          refine ⟨hf', t0, ts ++ [(tok.text, tok.box)], ?_, ?_, ?_⟩
          · rw [inputPairs_append,
              show t0 :: (ts ++ [(tok.text, tok.box)]) =
                (t0 :: ts) ++ [(tok.text, tok.box)] from rfl]
            exact hsub.append (List.Sublist.refl _)
          · rw [show t0 :: (ts ++ [(tok.text, tok.box)]) =
                (t0 :: ts) ++ [(tok.text, tok.box)] from rfl,
              concatStripped_append, ht]
            rfl
          · simp only [List.map_append, List.map_cons, List.map_nil]
            rw [unionList_append, hb]
      · rw [if_neg h3]
        by_cases h4 : (labelMap tok.pred == "O") = true
        · rw [if_pos h4]
          exact ⟨hemit, trivial⟩
        · rw [if_neg h4]
          exact ⟨hf', hc'⟩

theorem decodeFold_inv (labelMap : ℕ → String) :
    ∀ (toks pre : List Tok) (s : DecSt),
      (∀ sp ∈ s.fields, SpanFrom (inputPairs pre) sp) →
      CurFrom (inputPairs pre) s.cur →
      (∀ sp ∈ (toks.foldl (decodeStep labelMap) s).fields,
          SpanFrom (inputPairs (pre ++ toks)) sp) ∧
      CurFrom (inputPairs (pre ++ toks))
        ((toks.foldl (decodeStep labelMap) s).cur) := by
  intro toks
  induction toks with
  | nil =>
      intro pre s hf hc
      simpa using ⟨hf, hc⟩
  | cons tok toks ih =>
      intro pre s hf hc
      obtain ⟨hf', hc'⟩ := decodeStep_inv labelMap pre tok s hf hc
      have h := ih (pre ++ [tok]) (decodeStep labelMap s tok) hf' hc'
      rw [List.append_assoc] at h
      simpa using h

/-- **C6**: every span emitted by the decoding loop of `_process_page`
is explained by a nonempty ordered selection of the input tokens: its
text is the order-preserving concatenation of those tokens' texts with
the `"##"` continuation marker stripped and surrounding whitespace
trimmed, and its bounding box is the coordinate-wise union
(min x1, min y1, max x2, max y2) of those tokens' boxes. -/
theorem decoded_span_text_and_bbox (labelMap : ℕ → String)
    (toks : List Tok) (sp : Span)
    (hsp : sp ∈ decodeTokens labelMap toks) :
    ∃ t0 ts, (t0 :: ts).Sublist (inputPairs toks) ∧
      sp.text = strTrim (concatStripped (t0 :: ts)) ∧
      sp.bbox = boxListUnion t0.2 (ts.map Prod.snd) := by
  have h := decodeFold_inv labelMap toks [] ⟨[], none⟩
    (by intro sp h; cases h) trivial
  have hall := emitCur_inv h.1 h.2
  unfold decodeTokens at hsp
  obtain ⟨t0, ts, hsub, htext, hbox⟩ := hall sp hsp
  refine ⟨t0, ts, by simpa using hsub, htext, ?_⟩
  rw [hbox, unionList_eq_boxListUnion]

/-- Witness for `decoded_span_text_and_bbox`: the tokens
`("Na", B-FIELD), ("##me", I-FIELD)` produce the span `"Name"` whose
box is the union of the two token boxes. -/
theorem decoded_span_text_and_bbox_witness :
    ∃ t0 ts,
      (t0 :: ts).Sublist (inputPairs
        [⟨"Na", 7, ⟨0, 0, 5, 10⟩⟩, ⟨"##me", 8, ⟨5, 0, 9, 10⟩⟩]) ∧
      (⟨"FIELD", "Name", ⟨0, 0, 9, 10⟩⟩ : Span).text =
        strTrim (concatStripped (t0 :: ts)) ∧
      (⟨"FIELD", "Name", ⟨0, 0, 9, 10⟩⟩ : Span).bbox =
        boxListUnion t0.2 (ts.map Prod.snd) :=
  decoded_span_text_and_bbox defaultLabels
    [⟨"Na", 7, ⟨0, 0, 5, 10⟩⟩, ⟨"##me", 8, ⟨5, 0, 9, 10⟩⟩]
    ⟨"FIELD", "Name", ⟨0, 0, 9, 10⟩⟩ (by decide)

end PdfML
